import Mathlib

/-!
Verification development for the RPN calculator core (`src/main.rs`):
the command interpreter and stack/history engine of the `App` struct.

Modelling conventions:
* IEEE-754 doubles are modelled by `F64`: finite values carry an exact
  rational; the infinities and NaN are separate constructors.  Arithmetic
  on finite values is exact rational arithmetic (no rounding step); the
  special-value (NaN / infinity / division-by-zero / domain-error) cases
  follow IEEE-754.  There is no negative zero in the model.
* Transcendental operations (sin, log, sqrt, ...) are modelled exactly
  only at arguments where the IEEE-754 result is itself an exactly known
  rational (zeros, domain errors, infinities); at all other arguments the
  model returns `F64.nan`.  No theorem below depends on those values:
  they matter only as opaque unary maps fed to the generic
  `perform_single_operand_operation`.
* Rust `Vec` stacks are modelled as Lean lists with the head as the top
  of the stack / the most recent history snapshot (`Vec::push` is `cons`,
  `Vec::pop` takes the head).
-/

namespace RpnCalc

/-- Model of a Rust `f64` value: an exact rational, an infinity, or NaN. -/
inductive F64 where
  | num (q : ℚ)
  | posInf
  | negInf
  | nan
deriving DecidableEq, Repr

namespace F64

/-- IEEE addition (`a + b`). -/
def fadd : F64 → F64 → F64
  | nan, _ => nan
  | _, nan => nan
  | posInf, negInf => nan
  | negInf, posInf => nan
  | posInf, _ => posInf
  | _, posInf => posInf
  | negInf, _ => negInf
  | _, negInf => negInf
  | num a, num b => num (a + b)

/-- IEEE negation (`-a`). -/
def fneg : F64 → F64
  | nan => nan
  | posInf => negInf
  | negInf => posInf
  | num a => num (-a)

/-- IEEE subtraction (`a - b`). -/
def fsub : F64 → F64 → F64
  | nan, _ => nan
  | _, nan => nan
  | posInf, posInf => nan
  | negInf, negInf => nan
  | posInf, _ => posInf
  | negInf, _ => negInf
  | num _, posInf => negInf
  | num _, negInf => posInf
  | num a, num b => num (a - b)

/-- IEEE multiplication (`a * b`). -/
def fmul : F64 → F64 → F64
  | nan, _ => nan
  | _, nan => nan
  | posInf, posInf => posInf
  | posInf, negInf => negInf
  | negInf, posInf => negInf
  | negInf, negInf => posInf
  | posInf, num b => if b = 0 then nan else if 0 < b then posInf else negInf
  | negInf, num b => if b = 0 then nan else if 0 < b then negInf else posInf
  | num a, posInf => if a = 0 then nan else if 0 < a then posInf else negInf
  | num a, negInf => if a = 0 then nan else if 0 < a then negInf else posInf
  | num a, num b => num (a * b)

/-- IEEE division (`a / b`); a finite value divided by zero gives a
signed infinity by the sign of the dividend (the model has no `-0`). -/
def fdiv : F64 → F64 → F64
  | nan, _ => nan
  | _, nan => nan
  | posInf, posInf => nan
  | posInf, negInf => nan
  | negInf, posInf => nan
  | negInf, negInf => nan
  | posInf, num b => if 0 ≤ b then posInf else negInf
  | negInf, num b => if 0 ≤ b then negInf else posInf
  | num _, posInf => num 0
  | num _, negInf => num 0
  | num a, num b =>
    if b = 0 then
      if a = 0 then nan else if 0 < a then posInf else negInf
    else num (a / b)

/-- Truncation toward zero of a rational, as an integer. -/
def qtrunc (q : ℚ) : ℤ := if 0 ≤ q then q.floor else q.ceil

/-- IEEE remainder as computed by Rust `%` on `f64` (C `fmod`):
`a - b * trunc(a / b)`, with the sign of the dividend. -/
def fmod : F64 → F64 → F64
  | nan, _ => nan
  | _, nan => nan
  | posInf, _ => nan
  | negInf, _ => nan
  | num a, posInf => num a
  | num a, negInf => num a
  | num a, num b => if b = 0 then nan else num (a - b * (qtrunc (a / b) : ℚ))

/-- IEEE absolute value (`f64::abs`). -/
def fabs : F64 → F64
  | nan => nan
  | posInf => posInf
  | negInf => posInf
  | num a => num |a|

/-- Rounding of a rational to the nearest integer, ties away from zero
(the rounding mode of `f64::round`). -/
def qround (q : ℚ) : ℤ := if 0 ≤ q then (q + 1/2).floor else -((-q + 1/2).floor)

/-- `f64::round`: round half away from zero. -/
def fround : F64 → F64
  | nan => nan
  | posInf => posInf
  | negInf => negInf
  | num a => num (qround a : ℚ)

/-- Model of Rust `powf`.  `pow(x, 0) = 1` and `pow(1, y) = 1` even for
NaN arguments, per IEEE-754; finite bases with integer exponents are
exact; a finite positive base with a non-integer exponent is in general
irrational, and the model returns NaN there (no theorem uses that case).
-/
def fpow : F64 → F64 → F64
  | _, num 0 => num 1
  | num 1, _ => num 1
  | nan, _ => nan
  | _, nan => nan
  | posInf, posInf => posInf
  | posInf, negInf => num 0
  | negInf, posInf => posInf
  | negInf, negInf => num 0
  | posInf, num e => if 0 < e then posInf else num 0
  | negInf, num e =>
    if 0 < e then (if e.den = 1 ∧ Odd e.num then negInf else posInf) else num 0
  | num b, posInf => if b = -1 then num 1 else if 1 < |b| then posInf else num 0
  | num b, negInf => if b = -1 then num 1 else if 1 < |b| then num 0 else posInf
  | num b, num e =>
    if e.den = 1 then
      if b = 0 then (if 0 < e then num 0 else posInf)
      else num (b ^ e.num)
    else
      if b < 0 then nan
      else if b = 0 then (if 0 < e then num 0 else posInf)
      else nan

/-- `f64::sqrt`; exact when the argument is the square of a rational. -/
def fsqrt : F64 → F64
  | nan => nan
  | posInf => posInf
  | negInf => nan
  | num a =>
    if a < 0 then nan
    else
      let n := Nat.sqrt a.num.toNat
      let d := Nat.sqrt a.den
      if a.num.toNat = n * n ∧ a.den = d * d then num ((n : ℚ) / (d : ℚ)) else nan

/-- `f64::sin` (coarse model: exact only at 0). -/
def fsin : F64 → F64
  | num a => if a = 0 then num 0 else nan
  | _ => nan

/-- `f64::cos` (coarse model: exact only at 0). -/
def fcos : F64 → F64
  | num a => if a = 0 then num 1 else nan
  | _ => nan

/-- `f64::tan` (coarse model: exact only at 0). -/
def ftan : F64 → F64
  | num a => if a = 0 then num 0 else nan
  | _ => nan

/-- `f64::asin` (coarse model: NaN outside [-1, 1], exact only at 0). -/
def fasin : F64 → F64
  | num a => if a = 0 then num 0 else nan
  | _ => nan

/-- `f64::acos` (coarse model: NaN outside [-1, 1], exact only at 1). -/
def facos : F64 → F64
  | num a => if a = 1 then num 0 else nan
  | _ => nan

/-- `f64::atan` (coarse model: exact only at 0). -/
def fatan : F64 → F64
  | num a => if a = 0 then num 0 else nan
  | _ => nan

/-- `f64::to_degrees` (`a * 180 / pi`; coarse model away from 0). -/
def fto_degrees : F64 → F64
  | nan => nan
  | posInf => posInf
  | negInf => negInf
  | num a => if a = 0 then num 0 else nan

/-- `f64::to_radians` (`a * pi / 180`; coarse model away from 0). -/
def fto_radians : F64 → F64
  | nan => nan
  | posInf => posInf
  | negInf => negInf
  | num a => if a = 0 then num 0 else nan

/-- `f64::log base` (coarse model: exact only at 1 and at the domain
edges: negative arguments give NaN, zero gives negative infinity). -/
def flog (_base : ℚ) : F64 → F64
  | nan => nan
  | posInf => posInf
  | negInf => nan
  | num a => if a < 0 then nan else if a = 0 then negInf else if a = 1 then num 0 else nan

/-- `f64::ln` (coarse model, same conventions as `flog`). -/
def fln : F64 → F64
  | nan => nan
  | posInf => posInf
  | negInf => nan
  | num a => if a < 0 then nan else if a = 0 then negInf else if a = 1 then num 0 else nan

/-- Rust `as u64` cast of an `f64`: truncation toward zero, saturating
at the bounds of `u64`, with NaN mapped to 0. -/
def toU64 : F64 → ℕ
  | nan => 0
  | negInf => 0
  | posInf => 2 ^ 64 - 1
  | num a => if a ≤ 0 then 0 else min a.floor.toNat (2 ^ 64 - 1)

end F64

/-! ### Model of Rust `str::parse::<f64>`

The accepted grammar (from the standard library documentation):
`Sign? ( inf | infinity | nan | Number )` with the special words matched
case-insensitively, and `Number` one of `Digits [. [Digits]] [Exp]` or
`. Digits [Exp]`, `Exp = (e|E) Sign? Digits`.  The model returns the
exact rational value of the literal (the real parser rounds to the
nearest double); the set of accepted strings is the same. -/

/-- Strip one optional leading sign; returns (is-negative, rest). -/
def parseSign : List Char → Bool × List Char
  | '+' :: r => (false, r)
  | '-' :: r => (true, r)
  | r => (false, r)

/-- Numeric value of a digit string, most significant first. -/
def natOfDigits (ds : List Char) : ℕ :=
  ds.foldl (fun n c => n * 10 + (c.toNat - 48)) 0

/-- Parse the optional exponent part, which must consume the whole rest
of the input: empty means exponent 0. -/
def parseExp : List Char → Option ℤ
  | [] => some 0
  | c :: r =>
    if c = 'e' ∨ c = 'E' then
      let s := parseSign r
      let d := s.2.span Char.isDigit
      if d.1 = [] ∨ d.2 ≠ [] then none
      else some (if s.1 then -(natOfDigits d.1 : ℤ) else (natOfDigits d.1 : ℤ))
    else none

/-- Parse an unsigned decimal number (after the sign): integer digits,
optional fraction, optional exponent; at least one digit overall. -/
def parseNumber (cs : List Char) : Option ℚ :=
  let i := cs.span Char.isDigit
  match i.2 with
  | '.' :: r2 =>
    let f := r2.span Char.isDigit
    if i.1 = [] ∧ f.1 = [] then none
    else (parseExp f.2).map (fun e =>
      (natOfDigits (i.1 ++ f.1) : ℚ) * (10 : ℚ) ^ (e - (f.1.length : ℤ)))
  | _ =>
    if i.1 = [] then none
    else (parseExp i.2).map (fun e => (natOfDigits i.1 : ℚ) * (10 : ℚ) ^ e)

/-- Model of `input.parse::<f64>()`: `none` is `Err`, `some v` is `Ok`. -/
def parseF64 (s : String) : Option F64 :=
  let sg := parseSign s.data
  let low := sg.2.map Char.toLower
  if low = ['i', 'n', 'f'] ∨ low = ['i', 'n', 'f', 'i', 'n', 'i', 't', 'y'] then
    some (if sg.1 then F64.negInf else F64.posInf)
  else if low = ['n', 'a', 'n'] then some F64.nan
  else (parseNumber sg.2).map (fun q => F64.num (if sg.1 then -q else q))

/-! ### The engine state and its methods

The calculator state of the Rust `App` struct, restricted to the core
fields (the `input` line buffer and cursor are UI state outside the
engine; `process_input` takes the completed line as an argument). -/

/-- The stack and the two snapshot histories of the Rust `App`. -/
structure App where
  stack : List F64
  undo : List (List F64)
  redo : List (List F64)
deriving DecidableEq, Repr

namespace App

/-- `App::new`. -/
def new : App := ⟨[], [], []⟩

/-- `App::push_number`: snapshot to undo, push, clear redo. -/
def push_number (n : F64) (a : App) : App :=
  { stack := n :: a.stack, undo := a.stack :: a.undo, redo := [] }

/-- `App::push_infinity`: snapshot to undo, push `+inf`, clear redo. -/
def push_infinity (a : App) : App :=
  { stack := F64.posInf :: a.stack, undo := a.stack :: a.undo, redo := [] }

/-- `App::undo` (the `undo` command): restore the newest undo snapshot,
moving the current stack onto the redo history; no state change when the
undo history is empty (the source prints a diagnostic there). -/
def undoCmd (a : App) : App :=
  match a.undo with
  | [] => a
  | prev :: rest => { stack := prev, undo := rest, redo := a.stack :: a.redo }

/-- `App::redo` (the `redo` command), symmetric to `undoCmd`. -/
def redoCmd (a : App) : App :=
  match a.redo with
  | [] => a
  | next :: rest => { stack := next, undo := a.stack :: a.undo, redo := rest }

/-- `App::perform_single_operand_operation`: arity-1 guard, snapshot,
pop, apply, push, clear redo. -/
def perform_single_operand_operation (operation : F64 → F64) (a : App) : App :=
  match a.stack with
  | [] => a
  | x :: xs =>
    { stack := operation x :: xs, undo := (x :: xs) :: a.undo, redo := [] }

/-- `App::perform_operation`: arity-2 guard, snapshot, pop `b` then `a`,
push `operation a b`, clear redo. -/
def perform_operation (operation : F64 → F64 → F64) (a : App) : App :=
  match a.stack with
  | b :: x :: xs =>
    { stack := operation x b :: xs, undo := (b :: x :: xs) :: a.undo, redo := [] }
  | _ => a

/-- `App::perform_clone` (the empty-line duplicate command). -/
def perform_clone (a : App) : App :=
  match a.stack with
  | [] => a
  | x :: xs =>
    { stack := x :: x :: xs, undo := (x :: xs) :: a.undo, redo := [] }

/-- The nested `fn factorial(n: u64) -> u64` of `perform_factorial`:
`result` starts at 1 and is multiplied by each `i` in `1..=n` with
silently wrapping 64-bit multiplication. -/
def factorial (n : ℕ) : ℕ :=
  (List.range n).foldl (fun result i => result * (i + 1) % 2 ^ 64) 1

/-- `App::perform_factorial`: guard, snapshot, pop `a`, compute
`factorial(a.abs().round() as u64) as f64`, push, clear redo.  The
`u64 -> f64` conversion is modelled exactly. -/
def perform_factorial (a : App) : App :=
  match a.stack with
  | [] => a
  | x :: xs =>
    { stack := F64.num (factorial (F64.toU64 (F64.fround (F64.fabs x))) : ℚ) :: xs,
      undo := (x :: xs) :: a.undo, redo := [] }

/-- `App::perform_swap`: guard, snapshot, pop `b`, pop `a`, push `b`,
push `a`, clear redo. -/
def perform_swap (a : App) : App :=
  match a.stack with
  | b :: x :: xs =>
    { stack := x :: b :: xs, undo := (b :: x :: xs) :: a.undo, redo := [] }
  | _ => a

/-- `App::perform_clear`: snapshot, empty the stack.  Note: the source
does not clear the redo history here. -/
def perform_clear (a : App) : App :=
  { stack := [], undo := a.stack :: a.undo, redo := a.redo }

/-- `App::perform_drop`: guard, snapshot, pop.  Note: the source does
not clear the redo history here. -/
def perform_drop (a : App) : App :=
  match a.stack with
  | [] => a
  | x :: xs =>
    { stack := xs, undo := (x :: xs) :: a.undo, redo := a.redo }

/-- The vocabulary `match` of `App::process_input`, arm for arm in the
source's order, as an exact-match chain. -/
def run_token (input : String) (a : App) : App :=
  if input = "+" then perform_operation (fun x b => F64.fadd x b) a
  else if input = "-" then perform_operation (fun x b => F64.fsub x b) a
  else if input = "/" then perform_operation (fun x b => F64.fdiv x b) a
  else if input = "*" then perform_operation (fun x b => F64.fmul x b) a
  else if input = "" then perform_clone a
  else if input = "%" then perform_operation (fun x b => F64.fmod x b) a
  else if input = "^" then perform_operation (fun x b => F64.fpow b x) a
  else if input = "neg" then perform_single_operand_operation F64.fneg a
  else if input = "abs" then perform_single_operand_operation F64.fabs a
  else if input = "sqrt" then perform_single_operand_operation F64.fsqrt a
  else if input = "sin" then perform_single_operand_operation F64.fsin a
  else if input = "cos" then perform_single_operand_operation F64.fcos a
  else if input = "tan" then perform_single_operand_operation F64.ftan a
  else if input = "asin" then perform_single_operand_operation F64.fasin a
  else if input = "acos" then perform_single_operand_operation F64.facos a
  else if input = "atan" then perform_single_operand_operation F64.fatan a
  else if input = "deg" then perform_single_operand_operation F64.fto_degrees a
  else if input = "rad" then perform_single_operand_operation F64.fto_radians a
  else if input = "!" then perform_factorial a
  else if input = "recip" then perform_single_operand_operation (fun x => F64.fdiv (F64.num 1) x) a
  else if input = "log10" then perform_single_operand_operation (F64.flog 10) a
  else if input = "logn" then perform_single_operand_operation F64.fln a
  else if input = "log2" then perform_single_operand_operation (F64.flog 2) a
  else if input = "swap" then perform_swap a
  else if input = "clear" then perform_clear a
  else if input = "drop" then perform_drop a
  else if input = "undo" then undoCmd a
  else if input = "redo" then redoCmd a
  else if input = "inf" then push_infinity a
  else a

/-- `App::process_input` on a completed input line: a successful
`parse::<f64>` pushes the number, otherwise the vocabulary is consulted
(clearing the UI input line is outside the modelled state). -/
def process_input (input : String) (a : App) : App :=
  match parseF64 input with
  | some n => push_number n a
  | none => run_token input a

end App

/-! ### Token classification

The arity-2 vocabulary tokens (the five arithmetic operators, power and
swap), the arity-1 tokens (the empty-line duplicate, the unary
operators, factorial and drop), and the whole recognized vocabulary in
the source's match order. -/

/-- Vocabulary tokens whose action needs two stack values. -/
def binaryTokens : List String := ["+", "-", "/", "*", "%", "^", "swap"]

/-- Vocabulary tokens whose action needs one stack value. -/
def unaryTokens : List String :=
  ["", "neg", "abs", "sqrt", "sin", "cos", "tan", "asin", "acos", "atan",
   "deg", "rad", "!", "recip", "log10", "logn", "log2", "drop"]

/-- Every arm of the vocabulary match in `App.process_input`. -/
def vocabTokens : List String :=
  ["+", "-", "/", "*", "", "%", "^", "neg", "abs", "sqrt", "sin", "cos",
   "tan", "asin", "acos", "atan", "deg", "rad", "!", "recip", "log10",
   "logn", "log2", "swap", "clear", "drop", "undo", "redo", "inf"]

/-- Number of stack values an input line needs for its action to fire
(0 for a numeric push and for clear). -/
def tokenArity (t : String) : ℕ :=
  if t ∈ binaryTokens then 2 else if t ∈ unaryTokens then 1 else 0

/-- The input lines that trigger a mutating action: numeric pushes
(including the dead `inf` arm, reached through the literal parser) and
the vocabulary tokens other than `undo` and `redo`. -/
abbrev MutatingAction (t : String) : Prop :=
  (parseF64 t).isSome = true ∨ t ∈ binaryTokens ∨ t ∈ unaryTokens ∨ t = "clear"

/-- Master structural lemma: a mutating action whose arity is satisfied
pushes the pre-action stack onto the undo history and sets the redo
history to empty — except `clear` and `drop`, which keep it. -/
theorem process_input_mut (t : String) (st : App) (hm : MutatingAction t)
    (har : tokenArity t ≤ st.stack.length) :
    ∃ s, App.process_input t st =
      ⟨s, st.stack :: st.undo, if t = "clear" ∨ t = "drop" then st.redo else []⟩ := by
  rcases hm with hp | hb | hu | rfl
  · obtain ⟨n, hn⟩ := Option.isSome_iff_exists.mp hp
    have hc : ¬(t = "clear" ∨ t = "drop") := by
      rintro (rfl | rfl)
      · rw [(by decide : parseF64 "clear" = none)] at hn; exact Option.noConfusion hn
      · rw [(by decide : parseF64 "drop" = none)] at hn; exact Option.noConfusion hn
    refine ⟨n :: st.stack, ?_⟩
    rw [if_neg hc]
    simp only [App.process_input, hn]
    rfl
  · simp only [binaryTokens, List.mem_cons, List.not_mem_nil, or_false] at hb
    rcases hb with rfl | rfl | rfl | rfl | rfl | rfl | rfl <;>
      obtain ⟨stk, u, r⟩ := st <;>
      rcases stk with _ | ⟨b, _ | ⟨x, xs⟩⟩ <;>
      first
        | exact ⟨_, rfl⟩
        | simp [tokenArity, binaryTokens, unaryTokens] at har
  · simp only [unaryTokens, List.mem_cons, List.not_mem_nil, or_false] at hu
    rcases hu with rfl | rfl | rfl | rfl | rfl | rfl | rfl | rfl | rfl | rfl |
      rfl | rfl | rfl | rfl | rfl | rfl | rfl | rfl <;>
      obtain ⟨stk, u, r⟩ := st <;>
      rcases stk with _ | ⟨x, xs⟩ <;>
      first
        | exact ⟨_, rfl⟩
        | simp [tokenArity, binaryTokens, unaryTokens] at har
  · obtain ⟨stk, u, r⟩ := st
    exact ⟨[], rfl⟩

/-! ### The claims -/

/-- C1 (counterexample): the claim says every mutating action — `clear`
included — clears the Redo History, but `perform_clear` leaves it
untouched: processing `clear` from a state with a non-empty redo history
keeps that history. -/
theorem claim1_counterexample :
    (App.process_input "clear" ⟨[F64.num 1], [], [[F64.num 2]]⟩).redo ≠ [] := by
  decide

/-- C1 (amended): every mutating action executed from any state first
appends the pre-action stack snapshot to the Undo History and then
mutates the stack; all of them except `clear` and `drop` then clear the
Redo History, while `clear` and `drop` leave the Redo History unchanged;
`undo` and `redo` instead move a snapshot between the two histories. -/
theorem claim1_mutating_history_protocol (t : String) (st : App) :
    (MutatingAction t → tokenArity t ≤ st.stack.length →
      (App.process_input t st).undo = st.stack :: st.undo ∧
      (App.process_input t st).redo =
        (if t = "clear" ∨ t = "drop" then st.redo else [])) ∧
    (∀ prev rest, st.undo = prev :: rest →
      App.process_input "undo" st = ⟨prev, rest, st.stack :: st.redo⟩) ∧
    (∀ nxt rest, st.redo = nxt :: rest →
      App.process_input "redo" st = ⟨nxt, st.stack :: st.undo, rest⟩) := by
  refine ⟨fun hm har => ?_, fun prev rest h => ?_, fun nxt rest h => ?_⟩
  · obtain ⟨s, hs⟩ := process_input_mut t st hm har
    rw [hs]
    exact ⟨rfl, rfl⟩
  · obtain ⟨stk, u, r⟩ := st
    cases h
    rfl
  · obtain ⟨stk, u, r⟩ := st
    cases h
    rfl

/-- C1 (witness): the amended protocol at concrete inputs — a `drop`
from stack `[1]` with a pending redo snapshot, and an `undo`/`redo` pair
moving snapshots between the histories. -/
theorem claim1_witness :
    ((App.process_input "drop" ⟨[F64.num 1], [], [[F64.num 2]]⟩).undo =
        [[F64.num 1]] ∧
      (App.process_input "drop" ⟨[F64.num 1], [], [[F64.num 2]]⟩).redo =
        [[F64.num 2]]) ∧
    App.process_input "undo" ⟨[F64.num 3], [[F64.num 4]], []⟩ =
      ⟨[F64.num 4], [], [[F64.num 3]]⟩ := by
  constructor
  · have h := (claim1_mutating_history_protocol "drop"
      ⟨[F64.num 1], [], [[F64.num 2]]⟩).1 (by decide) (by decide)
    simpa using h
  · exact (claim1_mutating_history_protocol "undo"
      ⟨[F64.num 3], [[F64.num 4]], []⟩).2.1 [F64.num 4] [] rfl

/-- C2 (counterexample): with the stack `[2, 3]` (3 on top), the claim
predicts `second_popped ^ first_popped = 2 ^ 3 = 8` on top of the
resulting stack, but processing the power token leaves `[9]`: the value
popped first is the base, not the exponent. -/
theorem claim2_counterexample :
    (App.process_input "^" ⟨[F64.num 3, F64.num 2], [], []⟩).stack ≠
      [F64.fpow (F64.num 2) (F64.num 3)] := by
  with_unfolding_all decide

/-- C2 (amended): for every stack with at least two elements, the power
token pops the base first (the stack top) and the exponent second (the
value beneath), and pushes `first_popped ^ second_popped`, after the
usual snapshot-and-clear-redo history protocol. -/
theorem claim2_power_operand_order (b e : F64) (rest : List F64)
    (u r : List (List F64)) :
    App.process_input "^" ⟨b :: e :: rest, u, r⟩ =
      ⟨F64.fpow b e :: rest, (b :: e :: rest) :: u, []⟩ := rfl

/-- C3: an operator whose arity exceeds the stack size leaves the stack
and both histories exactly unchanged — no snapshot, no partial pop. -/
theorem claim3_arity_guard_no_mutation (t : String) (st : App)
    (hmem : t ∈ binaryTokens ∨ t ∈ unaryTokens)
    (har : st.stack.length < tokenArity t) :
    App.process_input t st = st := by
  rcases hmem with hb | hu
  · simp only [binaryTokens, List.mem_cons, List.not_mem_nil, or_false] at hb
    rcases hb with rfl | rfl | rfl | rfl | rfl | rfl | rfl <;>
      obtain ⟨stk, u, r⟩ := st <;>
      rcases stk with _ | ⟨b, _ | ⟨x, xs⟩⟩ <;>
      first
        | rfl
        | exact absurd har
            (by simp [tokenArity, binaryTokens, unaryTokens]; try omega)
  · simp only [unaryTokens, List.mem_cons, List.not_mem_nil, or_false] at hu
    rcases hu with rfl | rfl | rfl | rfl | rfl | rfl | rfl | rfl | rfl | rfl |
      rfl | rfl | rfl | rfl | rfl | rfl | rfl | rfl <;>
      obtain ⟨stk, u, r⟩ := st <;>
      rcases stk with _ | ⟨x, xs⟩ <;>
      first
        | rfl
        | exact absurd har
            (by simp [tokenArity, binaryTokens, unaryTokens]; try omega)

/-- C3 (witness): `swap` on a one-element stack and factorial on an
empty stack are strict no-ops. -/
theorem claim3_witness :
    App.process_input "swap" ⟨[F64.num 1], [[]], [[]]⟩ =
      ⟨[F64.num 1], [[]], [[]]⟩ ∧
    App.process_input "!" ⟨[], [[F64.num 2]], []⟩ = ⟨[], [[F64.num 2]], []⟩ :=
  ⟨claim3_arity_guard_no_mutation "swap" ⟨[F64.num 1], [[]], [[]]⟩
      (by decide) (by decide),
    claim3_arity_guard_no_mutation "!" ⟨[], [[F64.num 2]], []⟩
      (by decide) (by decide)⟩

/-- C4: from any state, after any mutating action whose arity is
satisfied, `undo` restores exactly the pre-action stack and a subsequent
`redo` restores exactly the post-action stack. -/
theorem claim4_undo_redo_round_trip (t : String) (st : App)
    (hm : MutatingAction t) (har : tokenArity t ≤ st.stack.length) :
    (App.process_input "undo" (App.process_input t st)).stack = st.stack ∧
    (App.process_input "redo"
        (App.process_input "undo" (App.process_input t st))).stack =
      (App.process_input t st).stack := by
  obtain ⟨s, hs⟩ := process_input_mut t st hm har
  rw [hs]
  exact ⟨rfl, rfl⟩

/-- C4 (witness): the round trip at the source's own test scenario —
stack `[3, 7]`, action `+`, then `undo`, then `redo`. -/
theorem claim4_witness :
    (App.process_input "undo"
        (App.process_input "+" ⟨[F64.num 7, F64.num 3], [], []⟩)).stack =
      [F64.num 7, F64.num 3] ∧
    (App.process_input "redo"
        (App.process_input "undo"
          (App.process_input "+" ⟨[F64.num 7, F64.num 3], [], []⟩))).stack =
      (App.process_input "+" ⟨[F64.num 7, F64.num 3], [], []⟩).stack :=
  claim4_undo_redo_round_trip "+" ⟨[F64.num 7, F64.num 3], [], []⟩
    (by decide) (by decide)

/-- C5: `undo` with an empty undo history, and `redo` with an empty redo
history, leave the whole state (stack and both histories) untouched. -/
theorem claim5_empty_history_noop (st : App) :
    (st.undo = [] → App.process_input "undo" st = st) ∧
    (st.redo = [] → App.process_input "redo" st = st) := by
  obtain ⟨stk, u, r⟩ := st
  constructor <;> rintro rfl <;> rfl

/-- C5 (witness): both no-ops at a concrete state with empty histories. -/
theorem claim5_witness :
    App.process_input "undo" ⟨[F64.num 5], [], []⟩ = ⟨[F64.num 5], [], []⟩ ∧
    App.process_input "redo" ⟨[F64.num 5], [], []⟩ = ⟨[F64.num 5], [], []⟩ :=
  ⟨(claim5_empty_history_noop ⟨[F64.num 5], [], []⟩).1 rfl,
    (claim5_empty_history_noop ⟨[F64.num 5], [], []⟩).2 rfl⟩

/-- C6: an input line that neither parses as a floating-point literal
nor matches a vocabulary token byte-for-byte leaves the stack and both
histories completely unchanged. -/
theorem claim6_unrecognized_noop (t : String) (st : App)
    (hp : parseF64 t = none) (hv : t ∉ vocabTokens) :
    App.process_input t st = st := by
  have hne : ∀ s ∈ vocabTokens, t ≠ s := fun s hs he => hv (he ▸ hs)
  have hrun : App.process_input t st = App.run_token t st := by
    unfold App.process_input
    rw [hp]
  rw [hrun]
  unfold App.run_token
  rw [if_neg (hne "+" (by decide)), if_neg (hne "-" (by decide)),
    if_neg (hne "/" (by decide)), if_neg (hne "*" (by decide)),
    if_neg (hne "" (by decide)), if_neg (hne "%" (by decide)),
    if_neg (hne "^" (by decide)), if_neg (hne "neg" (by decide)),
    if_neg (hne "abs" (by decide)), if_neg (hne "sqrt" (by decide)),
    if_neg (hne "sin" (by decide)), if_neg (hne "cos" (by decide)),
    if_neg (hne "tan" (by decide)), if_neg (hne "asin" (by decide)),
    if_neg (hne "acos" (by decide)), if_neg (hne "atan" (by decide)),
    if_neg (hne "deg" (by decide)), if_neg (hne "rad" (by decide)),
    if_neg (hne "!" (by decide)), if_neg (hne "recip" (by decide)),
    if_neg (hne "log10" (by decide)), if_neg (hne "logn" (by decide)),
    if_neg (hne "log2" (by decide)), if_neg (hne "swap" (by decide)),
    if_neg (hne "clear" (by decide)), if_neg (hne "drop" (by decide)),
    if_neg (hne "undo" (by decide)), if_neg (hne "redo" (by decide)),
    if_neg (hne "inf" (by decide))]

/-- C6 (witness): `" swap"` (leading space) and `"Undo"` (wrong casing)
are strict no-ops. -/
theorem claim6_witness :
    App.process_input " swap" ⟨[F64.num 2, F64.num 7], [[]], [[]]⟩ =
      ⟨[F64.num 2, F64.num 7], [[]], [[]]⟩ ∧
    App.process_input "Undo" ⟨[F64.num 2], [[]], []⟩ = ⟨[F64.num 2], [[]], []⟩ :=
  ⟨claim6_unrecognized_noop " swap" ⟨[F64.num 2, F64.num 7], [[]], [[]]⟩
      (by decide) (by decide),
    claim6_unrecognized_noop "Undo" ⟨[F64.num 2], [[]], []⟩
      (by decide) (by decide)⟩

/-- C7: the factorial token replaces the top operand `x` by the value
obtained by taking `|x|`, rounding to the nearest integer, casting to an
unsigned 64-bit integer, multiplying out `1 * 2 * ... * n` with silently
wrapping 64-bit multiplication, and converting back to a double
(modelled exactly); for every integer `n` in `[0, 20]` — including
`0! = 1` — the result is the canonical factorial value. -/
theorem claim7_factorial (x : F64) (rest : List F64) (u r : List (List F64)) :
    App.process_input "!" ⟨x :: rest, u, r⟩ =
      ⟨F64.num (App.factorial (F64.toU64 (F64.fround (F64.fabs x))) : ℚ) :: rest,
        (x :: rest) :: u, []⟩ ∧
    ∀ n : ℕ, n ≤ 20 →
      (App.process_input "!" ⟨[F64.num (n : ℚ)], u, r⟩).stack =
        [F64.num (n.factorial : ℚ)] := by
  refine ⟨rfl, fun n hn => ?_⟩
  interval_cases n <;> with_unfolding_all rfl

/-- C7 (witness): `5! = 120` end to end, as in the source's test. -/
theorem claim7_witness :
    (App.process_input "!" ⟨[F64.num ((5 : ℕ) : ℚ)], [], []⟩).stack =
      [F64.num (Nat.factorial 5 : ℚ)] :=
  (claim7_factorial (F64.num 5) [] [] []).2 5 (by norm_num)

/-- C8: the division token computes `a / b` with `a` the deeper value
(popped second) and `b` the top (popped first), with the IEEE-754
signed-infinity rule: `[10, 0]` gives `+Infinity` and `[-10, 0]` gives
`-Infinity`, and the engine never aborts. -/
theorem claim8_division_signed_infinity :
    (∀ (b a : F64) (rest : List F64) (u r : List (List F64)),
      App.process_input "/" ⟨b :: a :: rest, u, r⟩ =
        ⟨F64.fdiv a b :: rest, (b :: a :: rest) :: u, []⟩) ∧
    (App.process_input "/" ⟨[F64.num 0, F64.num 10], [], []⟩).stack =
      [F64.posInf] ∧
    (App.process_input "/" ⟨[F64.num 0, F64.num (-10)], [], []⟩).stack =
      [F64.negInf] :=
  ⟨fun b a rest u r => rfl, by with_unfolding_all rfl, by with_unfolding_all rfl⟩

/-- C9: the line `inf` is accepted by the numeric-literal parser (which
runs before the vocabulary match), so the dedicated `inf` vocabulary arm
is unreachable; both paths are behaviorally equivalent, each pushing
`+Infinity` after recording the pre-action snapshot and clearing the
redo history. -/
theorem claim9_inf_literal_shadows_token :
    parseF64 "inf" = some F64.posInf ∧
    ∀ st : App,
      App.process_input "inf" st = App.push_infinity st ∧
      App.process_input "inf" st = App.push_number F64.posInf st ∧
      App.push_infinity st =
        ⟨F64.posInf :: st.stack, st.stack :: st.undo, []⟩ :=
  ⟨rfl, fun _st => ⟨rfl, rfl, rfl⟩⟩

/-- C10: factorial of NaN is 1: rounding NaN gives NaN, the `as u64`
cast of NaN gives 0, and `0! = 1`, so the top NaN is replaced by `1.0`
under the usual history protocol. -/
theorem claim10_factorial_nan (rest : List F64) (u r : List (List F64)) :
    App.process_input "!" ⟨F64.nan :: rest, u, r⟩ =
      ⟨F64.num 1 :: rest, (F64.nan :: rest) :: u, []⟩ := rfl

end RpnCalc
